import Mathlib

/-!
# RTTR `misc_type_traits.h`: a shallow embedding of the compile-time type traits

The header computes facts about C++ types by template specialisation.  The
embedding represents a C++ type as a term of `Ty`, and every trait of the
header as a total (or `Option`-valued, where instantiation can be ill-formed)
function on `Ty`.  A class-template specialisation chosen by pattern
(`T*`, `T[N]`, `List<Types...>`) becomes a `match` on the constructor; a
specialisation chosen by `std::enable_if` becomes an `if` on the same trait.
-/

namespace std

/-- Top-level cv-qualification of an object type. -/
structure CV where
  is_const : Bool
  is_volatile : Bool
deriving DecidableEq, Repr

/-- No qualifier. -/
def CV.none : CV := ⟨false, false⟩

mutual
/-- C++ types.  An array type has no qualifier of its own: `const int[3]` is
the array of `const int` (and is itself const-qualified for `is_const`), as in
the language.  References and function types carry no top-level qualifier;
`quals` of a function type is the cv-qualifier-seq of a member function type
(`R(Args...) const`).  `tmpl` is a specialisation of a class template all of
whose parameters are types (`std::tuple<int, bool>`); every other class,
enum or fundamental type is `named`. -/
inductive Ty where
  | named (name : String) (cv : CV)
  | ptr (pointee : Ty) (cv : CV)
  | lref (referred : Ty)
  | rref (referred : Ty)
  | arr (elem : Ty) (extent : Option Nat)
  | func (ret : Ty) (params : TyList) (quals : CV)
  | memptr (cls : String) (member : Ty) (cv : CV)
  | tmpl (name : String) (args : TyList) (cv : CV)
deriving DecidableEq
/-- Template argument lists and parameter-type lists. -/
inductive TyList where
  | nil
  | cons (head : Ty) (tail : TyList)
deriving DecidableEq
end

/-- The pack as an ordinary list. -/
def TyList.toList : TyList → List Ty
  | .nil => []
  | .cons head tail => head :: tail.toList

/-- An ordinary list as a pack. -/
def TyList.ofList : List Ty → TyList
  | [] => .nil
  | head :: tail => .cons head (TyList.ofList tail)

/-- `std::is_same<T, U>::value`: identity of types. -/
def is_same (T U : Ty) : Bool := decide (T = U)

/-- `std::is_pointer<T>::value`: object and function pointers, with any
qualifier; member pointers are not pointers. -/
def is_pointer : Ty → Bool
  | .ptr _ _ => true
  | _ => false

/-- `std::is_member_pointer<T>::value`. -/
def is_member_pointer : Ty → Bool
  | .memptr _ _ _ => true
  | _ => false

/-- `std::is_reference<T>::value`. -/
def is_reference : Ty → Bool
  | .lref _ => true
  | .rref _ => true
  | _ => false

/-- `std::is_function<T>::value`. -/
def is_function : Ty → Bool
  | .func _ _ _ => true
  | _ => false

/-- `std::is_array<T>::value`. -/
def is_array : Ty → Bool
  | .arr _ _ => true
  | _ => false

/-- `std::is_const<T>::value`. -/
def is_const : Ty → Bool
  | .named _ cv => cv.is_const
  | .ptr _ cv => cv.is_const
  | .memptr _ _ cv => cv.is_const
  | .tmpl _ _ cv => cv.is_const
  | .arr elem _ => is_const elem
  | _ => false

/-- `std::is_volatile<T>::value`. -/
def is_volatile : Ty → Bool
  | .named _ cv => cv.is_volatile
  | .ptr _ cv => cv.is_volatile
  | .memptr _ _ cv => cv.is_volatile
  | .tmpl _ _ cv => cv.is_volatile
  | .arr elem _ => is_volatile elem
  | _ => false

/-- `std::remove_reference<T>::type`. -/
def remove_reference : Ty → Ty
  | .lref T => T
  | .rref T => T
  | T => T

/-- `std::remove_pointer<T>::type`: `T*`, `T* const`, `T* volatile` and
`T* const volatile` give `T`. -/
def remove_pointer : Ty → Ty
  | .ptr T _ => T
  | T => T

/-- `std::remove_cv<T>::type`; on an array the qualifier of the element goes. -/
def remove_cv : Ty → Ty
  | .named name _ => .named name CV.none
  | .ptr T _ => .ptr T CV.none
  | .memptr cls member _ => .memptr cls member CV.none
  | .tmpl name args _ => .tmpl name args CV.none
  | .arr elem extent => .arr (remove_cv elem) extent
  | T => T

/-- `std::add_pointer<T>::type`: pointer to the referred type; a cv-qualified
function type is not referenceable and is left unchanged. -/
def add_pointer : Ty → Ty
  | .lref T => .ptr T CV.none
  | .rref T => .ptr T CV.none
  | .func ret params quals =>
      if quals = CV.none then .ptr (.func ret params quals) CV.none else .func ret params quals
  | T => .ptr T CV.none

/-- `std::rank<T>::value`: the number of array dimensions. -/
def rank : Ty → Nat
  | .arr elem _ => rank elem + 1
  | _ => 0

end std

namespace rttr
namespace detail

open std

/-- Modelled from the spec: `detail::remove_cv` of `std_type_traits.h` (not in
the sources at hand), used by the header as "removes cv-qualifiers", the
behaviour of the standard trait. -/
def remove_cv (T : Ty) : Ty := std.remove_cv T

/-- Modelled from the spec: `detail::remove_pointer` of `std_type_traits.h`
(not in the sources at hand): removes one pointer layer, whatever the
qualifier of the pointer. -/
def remove_pointer (T : Ty) : Ty := std.remove_pointer T

/-- Modelled from the spec: `detail::is_function_ptr` of `function_traits.h`
(not in the sources at hand): "a pointer that is a function-pointer type",
a pointer whose pointee is a function type. -/
def is_function_ptr (T : Ty) : Bool :=
  is_pointer T && is_function (std.remove_pointer T)

/-! ## `raw_type` (lines 49-68) -/

/-- The trait `raw_type<T>::type`.  The specialisation for
`is_pointer<T> && !is_function_ptr<T>` recurses on `remove_pointer<T>`, the
one for `is_reference<T>` on `remove_reference<T>`, the primary template gives
`remove_cv<T>`. -/
def raw_type : Ty → Ty
  | .ptr T cv =>
      if is_pointer (.ptr T cv) && !is_function_ptr (.ptr T cv) then raw_type T
      else remove_cv (.ptr T cv)
  | .lref T => raw_type T
  | .rref T => raw_type T
  | T => remove_cv T

/-! ## `remove_pointers`, `remove_pointers_except_one` (lines 70-92) -/

/-- The trait `remove_pointers<T>::type`. -/
def remove_pointers : Ty → Ty
  | .ptr T _ => remove_pointers T
  | T => T

/-- The trait `remove_pointers_except_one<T>::type`. -/
def remove_pointers_except_one : Ty → Ty
  | .ptr T cv =>
      if is_pointer T then remove_pointers_except_one T else .ptr T cv
  | T => T

/-! ## `pointer_count` (lines 400-420) -/

/-- The constant `pointer_count_impl<T>::size`. -/
def pointer_count_impl : Ty → Nat
  | .ptr T cv =>
      if is_pointer (.ptr T cv) && !is_function_ptr (.ptr T cv)
          && !is_member_pointer (.ptr T cv) then pointer_count_impl T + 1
      else 0
  | _ => 0

/-- The constant `pointer_count<T>::value`. -/
def pointer_count (T : Ty) : Nat := pointer_count_impl T

/-! ## `raw_array_type` (lines 95-114) -/

/-- The trait `raw_array_type<T>::type`.  For `std::is_array<T>` the type is
`raw_array_type_impl<remove_cv<T>>::type`, and `raw_array_type_impl` is
defined for `T[N]` only (as `raw_array_type<T>::type`): on an array of
unknown bound the instantiation is ill-formed, `none`.  Otherwise the type
is `raw_type<T>::type`. -/
def raw_array_type : Ty → Option Ty
  | .arr elem extent =>
      match h : remove_cv (.arr elem extent) with
      | .arr T (some _) => raw_array_type T
      | _ => none
  | T => some (raw_type T)
termination_by T => std.rank T
decreasing_by
  simp only [remove_cv, std.remove_cv] at h
  injection h with h1 h2
  subst h1
  have key : ∀ U : Ty, std.rank (std.remove_cv U) = std.rank U := fun U =>
    @Ty.rec (fun V => std.rank (std.remove_cv V) = std.rank V) (fun _ => True)
      (fun _ _ => rfl) (fun _ _ _ => rfl) (fun _ _ => rfl) (fun _ _ => rfl)
      (fun _ _ ih => by simp [std.remove_cv, std.rank, ih])
      (fun _ _ _ _ _ => rfl) (fun _ _ _ _ => rfl) (fun _ _ _ _ => rfl)
      trivial (fun _ _ _ _ => trivial) U
  simp [std.rank, key]

/-! ## `static_all_of`, `static_any_of` (lines 116-143) -/

/-- The constant `static_all_of<b...>::value`. -/
def static_all_of : List Bool → Bool
  | true :: tail => static_all_of tail
  | false :: _ => false
  | [] => true

/-- The constant `static_any_of<b...>::value`. -/
def static_any_of : List Bool → Bool
  | true :: _ => true
  | false :: tail => static_any_of tail
  | [] => false

/-! ## `contains` (lines 311-319) -/

/-- The pack expansion `std::is_same<T, Types>::value...`. -/
def is_same_pack (T : Ty) : TyList → List Bool
  | .nil => []
  | .cons head tail => is_same T head :: is_same_pack T tail

/-- The constant `contains<T, Types...>::value`.  The specialisation
`contains<T, TContainer<Types...>>` is chosen when the pack is one
specialisation of a template with type parameters only (deduction of
`TContainer<Types...>` fails on a cv-qualified type), and inherits from
`contains<T, Types...>`; the primary template is
`static_any_of<std::is_same<T, Types>::value...>`. -/
def contains (T : Ty) : TyList → Bool
  | .cons (.tmpl name Types cv) .nil =>
      if cv = CV.none then contains T Types
      else static_any_of (is_same_pack T (.cons (.tmpl name Types cv) .nil))
  | Types => static_any_of (is_same_pack T Types)

/-! ## `rank_type`, `rank` (lines 342-398) -/

/-- Modelled from the spec: `array_mapper<T>::sub_type` of `array_mapper.h`
(not in the sources at hand) for the native arrays: the sub-type of `U[N]`
is `U`, the sub-type of any other type is the type itself.  The traits below
take the adapter as the parameter `sub_type`. -/
def native_array_sub_type : Ty → Ty
  | .arr U (some _) => U
  | T => T

/-- The trait `concat_array_types<List<Types...>, T, Flag>::type`, the pack
`Types` of the resulting list.  With `std::true_type` the list is returned;
with `std::false_type` `T` is appended and the trait is instantiated again on
`array_mapper<T>::sub_type` with the flag `std::is_same<T, sub_type>`.
`fuel` bounds the depth of the recursive instantiation: `none` when the
instantiation does not end within it. -/
def concat_array_types (sub_type : Ty → Ty) : Nat → List Ty → Ty → Bool → Option (List Ty)
  | _, Types, _, true => some Types
  | 0, _, _, false => none
  | fuel + 1, Types, T, false =>
      concat_array_types sub_type fuel (Types ++ [T]) (sub_type T) (is_same T (sub_type T))

/-- The pack of the tuple `array_rank_type_list<T>::types`. -/
def array_rank_type_list (sub_type : Ty → Ty) (fuel : Nat) (T : Ty) : Option (List Ty) :=
  concat_array_types sub_type fuel [] T (is_same T (sub_type T))

/-- The trait `rank_type<T, N>::type`: `std::tuple_element<N, types>`, which
is ill-formed (`none`) for `N` out of range. -/
def rank_type (sub_type : Ty → Ty) (fuel : Nat) (T : Ty) (N : Nat) : Option Ty :=
  (array_rank_type_list sub_type fuel T).bind fun types => types.get? N

/-- Width of `std::size_t` in bits. -/
def size_t_bits : Nat := 64

/-- The constant `rank_impl<List<Types...>>::type::value`:
`sizeof...(Types) - 1`, computed in `std::size_t`.  (The primary template,
with value 0, is for arguments that are not a list; `rank` always passes the
tuple `array_rank_type_list<T>::types`.) -/
def rank_impl (Types : List Ty) : Nat :=
  (Types.length + 2 ^ size_t_bits - 1) % 2 ^ size_t_bits

/-- The constant `rank<T>::value`. -/
def rank (sub_type : Ty → Ty) (fuel : Nat) (T : Ty) : Option Nat :=
  (array_rank_type_list sub_type fuel T).map rank_impl

/-! ## `is_one_dim_char_array` (lines 422-430) -/

/-- The type `char`. -/
def char_type : Ty := .named "char" CV.none

/-- The constant `is_one_dim_char_array<T>::value`; ill-formed (`none`) where
`raw_array_type_t<T>` is. -/
def is_one_dim_char_array (T : Ty) : Option Bool :=
  (raw_array_type T).map fun R =>
    std.is_array T && is_same char_type R && (std.rank T == 1)

/-! ## Vocabulary of the specification -/

/-- One stripping step of the canonical identity resolver, as the
specification words it: remove one reference layer if the type is a
reference, or one pointer layer if the type is a pointer that is not a
function-pointer type. -/
inductive strip_step : Ty → Ty → Prop where
  | reference (T : Ty) : is_reference T = true → strip_step T (remove_reference T)
  | pointer (T : Ty) : is_pointer T = true → is_function_ptr T = false →
      strip_step T (std.remove_pointer T)

/-- A type on which no stripping step applies: not a reference, and a pointer
only if a function pointer. -/
def stripped (T : Ty) : Prop :=
  is_reference T = false ∧ (is_pointer T = true → is_function_ptr T = true)

/-- An ordinary pointer: a pointer that is neither a function pointer nor a
member pointer. -/
def is_ordinary_pointer (T : Ty) : Bool :=
  is_pointer T && !is_function_ptr T && !is_member_pointer T

/-- The type `B` wrapped in pointer layers with the given qualifiers, the
outermost layer first: `pointer_layers char [c1, c2]` is `char * c2 * c1`. -/
def pointer_layers (B : Ty) : List CV → Ty
  | [] => B
  | cv :: inner => .ptr (pointer_layers B inner) cv

/-- The native array of `E` with the given extents, outermost first:
`native_array int [2, 10, 4]` is `int[2][10][4]`. -/
def native_array (E : Ty) : List Nat → Ty
  | [] => E
  | N :: inner => .arr (native_array E inner) (some N)

/-- The types left of `native_array E extents` when 0, 1, ... of its outermost
extents are removed, down to `E` itself. -/
def native_array_levels (E : Ty) : List Nat → List Ty
  | [] => [E]
  | N :: inner => native_array E (N :: inner) :: native_array_levels E inner

/-- The list `[T, sub_type(T), sub_type(sub_type(T)), ...]` of the
specification, with `n` steps after `T`. -/
def sub_type_chain (sub_type : Ty → Ty) : Nat → Ty → List Ty
  | 0, T => [T]
  | n + 1, T => T :: sub_type_chain sub_type n (sub_type T)

/-- The types `void`, `bool`, `int`, `double` of the examples. -/
def void_type : Ty := .named "void" CV.none

/-- The type `bool`. -/
def bool_type : Ty := .named "bool" CV.none

/-- The type `int`. -/
def int_type : Ty := .named "int" CV.none

/-- The type `double`. -/
def double_type : Ty := .named "double" CV.none

/-- The function type `void()`. -/
def void_function : Ty := .func void_type .nil CV.none

/-- The specialisation `type_list<Types...>` of the header's list template. -/
def type_list (Types : List Ty) : Ty := .tmpl "type_list" (TyList.ofList Types) CV.none

/-- The specialisation `std::vector<int, std::allocator<int>>`. -/
def vector_int : Ty :=
  .tmpl "std::vector"
    (.cons int_type (.cons (.tmpl "std::allocator" (.cons int_type .nil) CV.none) .nil)) CV.none

/-- A cv-unqualified specialisation of a class template with type parameters
only: the types that a pattern `List<Ts...>` with `template<class...> class
List` matches. -/
def is_template_specialisation : Ty → Bool
  | .tmpl _ _ cv => decide (cv = CV.none)
  | _ => false

/-! ## `is_type_in_list` (lines 432-465) -/

/-- The constant `is_type_in_list_impl<T, Ts...>::value`.  The primary
template is declared only, so the empty pack is ill-formed (`none`).  On one
type `U` the specialisation for `List<Ts...>` is the most specialised when
`U` is a template specialisation, and gives `is_type_in_list_impl<T, Ts...>`;
otherwise `<T, U>` gives `std::is_same<T, U>`.  On two types or more
`<T, T2, U...>` gives `std::is_same<T, T2> || is_type_in_list_impl<T, U...>`,
instantiating both. -/
def is_type_in_list_impl (T : Ty) : TyList → Option Bool
  | .nil => none
  | .cons (.tmpl name Ts cv) .nil =>
      if cv = CV.none then is_type_in_list_impl T Ts
      else some (is_same T (.tmpl name Ts cv))
  | .cons U .nil => some (is_same T U)
  | .cons T2 (.cons U rest) =>
      (is_type_in_list_impl T (.cons U rest)).map fun r => is_same T T2 || r

/-- The constant `is_type_in_list<T, List>::value`. -/
def is_type_in_list (T List : Ty) : Option Bool :=
  is_type_in_list_impl T (.cons List .nil)

/-! ## `max_sizeof_list`, `max_alignof_list` (lines 467-534) -/

/-- The constant `max_sizeof_list_impl<Ts...>::value`, for the platform's
`sizeof`.  The primary template is declared only and needs one type, so the
empty pack is ill-formed (`none`).  On one type the specialisation for
`List<Ts...>` is the most specialised when the type is a template
specialisation, and gives `max_sizeof_list_impl<Ts...>`; otherwise `<T>`
gives `sizeof(T)`.  On two types or more `<T1, T2, U...>` continues with
`std::conditional<sizeof(T1) >= sizeof(T2), T1, T2>::type, U...`. -/
def max_sizeof_list_impl (sizeof_ : Ty → Nat) : TyList → Option Nat
  | .nil => none
  | .cons (.tmpl name Ts cv) .nil =>
      if cv = CV.none then max_sizeof_list_impl sizeof_ Ts
      else some (sizeof_ (.tmpl name Ts cv))
  | .cons T .nil => some (sizeof_ T)
  | .cons T1 (.cons T2 U) =>
      max_sizeof_list_impl sizeof_ (.cons (if sizeof_ T1 ≥ sizeof_ T2 then T1 else T2) U)
termination_by Ts => sizeOf Ts
decreasing_by
  all_goals simp_wf
  all_goals (try split) <;> omega

/-- The constant `max_sizeof_list<Ts...>::value`. -/
def max_sizeof_list (sizeof_ : Ty → Nat) (Ts : TyList) : Option Nat :=
  max_sizeof_list_impl sizeof_ Ts

/-- The constant `max_alignof_list_impl<Ts...>::value`, for the platform's
`std::alignment_of`; the templates have the shape of `max_sizeof_list_impl`. -/
def max_alignof_list_impl (alignment_of : Ty → Nat) : TyList → Option Nat
  | .nil => none
  | .cons (.tmpl name Ts cv) .nil =>
      if cv = CV.none then max_alignof_list_impl alignment_of Ts
      else some (alignment_of (.tmpl name Ts cv))
  | .cons T .nil => some (alignment_of T)
  | .cons T1 (.cons T2 U) =>
      max_alignof_list_impl alignment_of
        (.cons (if alignment_of T1 ≥ alignment_of T2 then T1 else T2) U)
termination_by Ts => sizeOf Ts
decreasing_by
  all_goals simp_wf
  all_goals (try split) <;> omega

/-- The constant `max_alignof_list<Ts...>::value`. -/
def max_alignof_list (alignment_of : Ty → Nat) (Ts : TyList) : Option Nat :=
  max_alignof_list_impl alignment_of Ts

/-! ## `get_void_ptr` (lines 256-302) -/

/-- The alias `remove_cv_ref_t<T>`. -/
def remove_cv_ref_t (T : Ty) : Ty := remove_cv (remove_reference T)

/-- The trait `decay<T>::type`. -/
def decay (T : Ty) : Ty :=
  let Tp := remove_reference T
  if is_function Tp then add_pointer Tp else remove_cv Tp

/-- The specialisation `std::default_delete<T>`. -/
def default_delete (T : Ty) : Ty := .tmpl "std::default_delete" (.cons T .nil) CV.none

/-- The specialisation `std::unique_ptr<T, D>`. -/
def unique_ptr_with (T D : Ty) : Ty := .tmpl "std::unique_ptr" (.cons T (.cons D .nil)) CV.none

/-- The specialisation `std::unique_ptr<T>`, which is
`std::unique_ptr<T, std::default_delete<T>>`. -/
def unique_ptr (T : Ty) : Ty := unique_ptr_with T (default_delete T)

/-- The specialisation `std::shared_ptr<T>`. -/
def shared_ptr (T : Ty) : Ty := .tmpl "std::shared_ptr" (.cons T .nil) CV.none

/-- The constant `is_unique_ptr<T>::value`: true on the specialisation for
`std::unique_ptr<T>`, false on the primary template. -/
def is_unique_ptr : Ty → Bool
  | .tmpl name (.cons T (.cons D .nil)) cv =>
      decide (name = "std::unique_ptr" ∧ D = default_delete T ∧ cv = CV.none)
  | _ => false

/-! ## The capability probes (lines 145-250) -/

/-- A member declared in a class: its name, whether it is static, and its
type; the type of a member function is the function type with the
cv-qualifier-seq of the declaration. -/
structure member_decl where
  name : String
  is_static : Bool
  type : Ty
deriving DecidableEq

/-- The type `rttr::type`. -/
def rttr_type : Ty := .named "rttr::type" CV.none

/-- The type `rttr::detail::derived_info`. -/
def derived_info : Ty := .named "rttr::detail::derived_info" CV.none

/-- Whether `check<C, &C::name>` is well-formed for the template
`template <typename U, Sig (U::*)> class check`: `&C::name` names a
non-static member of `C` whose type is `Sig`; no conversion applies to a
template argument of pointer-to-member-function type.  `members C` are the
accessible members that `C` declares (a member inherited from a base `B` has
a pointer of type `Sig (B::*)` and does not match; a type that is not a
class declares nothing). -/
def check (members : Ty → List member_decl) (C : Ty) (name : String) (Sig : Ty) : Bool :=
  (members C).any fun m => decide (m.name = name ∧ m.is_static = false ∧ m.type = Sig)

/-- The constant `has_get_type_func_impl<T>::value`: the overload of `f`
with `check<C, &C::get_type>*` is viable for `C = raw_type<T>::type`, the
member being `rttr::type (C::*)() const`. -/
def has_get_type_func_impl (members : Ty → List member_decl) (T : Ty) : Bool :=
  check members (raw_type T) "get_type" (.func rttr_type .nil ⟨true, false⟩)

/-- The constant `has_get_type_func<T>::value`. -/
def has_get_type_func (members : Ty → List member_decl) (T : Ty) : Bool :=
  if has_get_type_func_impl members T then true else false

/-- The constant `has_get_ptr_func_impl<T>::value`, the member being
`void* (C::*)()`. -/
def has_get_ptr_func_impl (members : Ty → List member_decl) (T : Ty) : Bool :=
  check members (raw_type T) "get_ptr" (.func (.ptr void_type CV.none) .nil CV.none)

/-- The constant `has_get_ptr_func<T>::value`. -/
def has_get_ptr_func (members : Ty → List member_decl) (T : Ty) : Bool :=
  if has_get_ptr_func_impl members T then true else false

/-- The constant `has_get_derived_info_func_impl<T>::value`, the member being
`derived_info (C::*)()`. -/
def has_get_derived_info_func_impl (members : Ty → List member_decl) (T : Ty) : Bool :=
  check members (raw_type T) "get_derived_info" (.func derived_info .nil CV.none)

/-- The constant `has_get_derived_info_func<T>::value`. -/
def has_get_derived_info_func (members : Ty → List member_decl) (T : Ty) : Bool :=
  if has_get_derived_info_func_impl members T then true else false

/-! ## Vocabulary of the specification, continued -/

/-- The maximum of `f` over a list of types. -/
def max_over (f : Ty → Nat) : List Ty → Nat
  | [] => 0
  | T :: rest => max (f T) (max_over f rest)

/-- The first type of `W, rest...` on which `f` is largest. -/
def first_largest (f : Ty → Nat) (W : Ty) : TyList → Ty
  | .nil => W
  | .cons T2 U => first_largest f (if f W ≥ f T2 then W else T2) U

/-- Sizes of the types of the examples on an LP64 platform: `char` 1, `bool`
1, `int` 4, `double` 8, pointers 8, arrays the extent times the element, an
empty class such as `type_list<...>` 1. -/
def sizeof_lp64 : Ty → Nat
  | .named name _ => if name = "int" then 4 else if name = "double" then 8 else 1
  | .ptr _ _ => 8
  | .memptr _ _ _ => 8
  | .arr elem (some N) => N * sizeof_lp64 elem
  | _ => 1

/-- Alignments of the types of the examples on an LP64 platform. -/
def alignof_lp64 : Ty → Nat
  | .named name _ => if name = "int" then 4 else if name = "double" then 8 else 1
  | .ptr _ _ => 8
  | .memptr _ _ _ => 8
  | .arr elem _ => alignof_lp64 elem
  | _ => 1

/-- The specialisation `primitive_list<Types...>` of the header's example. -/
def primitive_list (Types : List Ty) : Ty :=
  .tmpl "primitive_list" (TyList.ofList Types) CV.none

/-- The last type of a pack. -/
def TyList_last : TyList → Option Ty
  | .nil => none
  | .cons T .nil => some T
  | .cons _ (.cons U rest) => TyList_last (.cons U rest)

/-- The classes of the probe examples: `A` declares
`rttr::type get_type() const`, `B` declares `rttr::type get_type()` only, and
no other type declares a member. -/
def example_members : Ty → List member_decl
  | .named name _ =>
      if name = "A" then [⟨"get_type", false, .func rttr_type .nil ⟨true, false⟩⟩]
      else if name = "B" then [⟨"get_type", false, .func rttr_type .nil CV.none⟩]
      else []
  | _ => []

end detail
end rttr

namespace std

/-- `std::add_const<T>::type`: `const T`; a reference or a function type is
unchanged, and on an array the qualifier goes to the element. -/
def add_const : Ty → Ty
  | .named name cv => .named name ⟨true, cv.is_volatile⟩
  | .ptr T cv => .ptr T ⟨true, cv.is_volatile⟩
  | .memptr cls member cv => .memptr cls member ⟨true, cv.is_volatile⟩
  | .tmpl name args cv => .tmpl name args ⟨true, cv.is_volatile⟩
  | .arr elem extent => .arr (add_const elem) extent
  | T => T

/-- `std::add_lvalue_reference<T>::type`: `T&`, with reference collapsing;
`void` and a function type with a cv-qualifier-seq are not referenceable and
are unchanged. -/
def add_lvalue_reference : Ty → Ty
  | .lref T => .lref T
  | .rref T => .lref T
  | .named name cv => if name = "void" then .named name cv else .lref (.named name cv)
  | .func ret params quals =>
      if quals = CV.none then .lref (.func ret params quals) else .func ret params quals
  | T => .lref T

end std

namespace rttr
namespace detail

open std

/-! ## `is_array` (lines 321-340) -/

/-- The constant `is_array_impl<T>::value`: the overload of `check` with
`typename U::no_array_type*` is viable for `U = array_mapper<T>` exactly
when the adapter declares `no_array_type`, and then the value is false.  The
adapter (`array_mapper.h`, an extension point) is the parameter
`no_array_type`: whether `array_mapper<T>` carries the marker. -/
def is_array_impl (no_array_type : Ty → Bool) (T : Ty) : Bool :=
  !no_array_type T

/-- The constant `is_array<T>::value`. -/
def is_array (no_array_type : Ty → Bool) (T : Ty) : Bool :=
  if is_array_impl no_array_type (remove_cv (remove_reference T)) then true else false

/-- Modelled from the spec: the opt-out marker of `array_mapper<T>`
(`array_mapper.h` is not in the sources at hand) for the native arrays: the
adapter of `U[N]` decomposes and carries no marker, the adapter of any other
type carries `no_array_type`. -/
def native_array_no_array_type : Ty → Bool
  | .arr _ (some _) => false
  | _ => true

end detail
end rttr

/-! # Theorems -/

namespace rttr
namespace detail

open std

/-! ## Unfolding equations in the shape of the header -/

/-- `raw_type` satisfies the equations of its three templates. -/
theorem raw_type_eq (T : Ty) :
    raw_type T =
      if is_pointer T && !is_function_ptr T then raw_type (remove_pointer T)
      else if is_reference T then raw_type (remove_reference T)
      else remove_cv T := by
  cases T <;> simp [raw_type, is_pointer, is_function_ptr, is_reference, remove_pointer,
    std.remove_pointer, remove_reference]

/-- `pointer_count_impl` satisfies the equations of its two templates. -/
theorem pointer_count_impl_eq (T : Ty) :
    pointer_count_impl T =
      if is_pointer T && !is_function_ptr T && !is_member_pointer T
      then pointer_count_impl (remove_pointer T) + 1 else 0 := by
  cases T <;> simp [pointer_count_impl, is_pointer, is_function_ptr, is_member_pointer,
    remove_pointer, std.remove_pointer]

/-! ## Facts about the standard traits -/

theorem std_remove_cv_idem : ∀ T : Ty, std.remove_cv (std.remove_cv T) = std.remove_cv T
  | .arr elem extent => by simp [std.remove_cv, std_remove_cv_idem elem]
  | .named _ _ => rfl
  | .ptr _ _ => rfl
  | .lref _ => rfl
  | .rref _ => rfl
  | .func _ _ _ => rfl
  | .memptr _ _ _ => rfl
  | .tmpl _ _ _ => rfl

theorem is_const_remove_cv : ∀ T : Ty, is_const (std.remove_cv T) = false
  | .arr elem extent => by simp [std.remove_cv, is_const, is_const_remove_cv elem]
  | .named _ _ => rfl
  | .ptr _ _ => rfl
  | .lref _ => rfl
  | .rref _ => rfl
  | .func _ _ _ => rfl
  | .memptr _ _ _ => rfl
  | .tmpl _ _ _ => rfl

theorem is_volatile_remove_cv : ∀ T : Ty, is_volatile (std.remove_cv T) = false
  | .arr elem extent => by simp [std.remove_cv, is_volatile, is_volatile_remove_cv elem]
  | .named _ _ => rfl
  | .ptr _ _ => rfl
  | .lref _ => rfl
  | .rref _ => rfl
  | .func _ _ _ => rfl
  | .memptr _ _ _ => rfl
  | .tmpl _ _ _ => rfl

theorem is_reference_remove_cv (T : Ty) : is_reference (std.remove_cv T) = is_reference T := by
  cases T <;> rfl

theorem is_pointer_remove_cv (T : Ty) : is_pointer (std.remove_cv T) = is_pointer T := by
  cases T <;> rfl

theorem is_function_ptr_remove_cv (T : Ty) :
    is_function_ptr (std.remove_cv T) = is_function_ptr T := by
  cases T <;> rfl

/-! ## The canonical identity resolver -/

theorem raw_type_of_stripped (R : Ty) (h : stripped R) : raw_type R = remove_cv R := by
  obtain ⟨h1, h2⟩ := h
  cases R <;> simp_all [raw_type, is_reference, is_pointer]

theorem stripped_remove_cv (R : Ty) (h : stripped R) : stripped (std.remove_cv R) := by
  obtain ⟨h1, h2⟩ := h
  exact ⟨by rw [is_reference_remove_cv]; exact h1,
    by rw [is_pointer_remove_cv, is_function_ptr_remove_cv]; exact h2⟩

/-- The resolver returns `remove_cv` of a stripped type reached by stripping
steps. -/
theorem raw_type_strips : ∀ T : Ty,
    ∃ R, Relation.ReflTransGen strip_step T R ∧ stripped R ∧ raw_type T = remove_cv R
  | .ptr T cv => by
      by_cases hf : is_function T = true
      · refine ⟨.ptr T cv, Relation.ReflTransGen.refl, ⟨rfl, ?_⟩, ?_⟩
        · intro _; simp [is_function_ptr, is_pointer, std.remove_pointer, hf]
        · simp [raw_type, is_function_ptr, is_pointer, std.remove_pointer, hf]
      · obtain ⟨R, hR, hs, he⟩ := raw_type_strips T
        refine ⟨R, Relation.ReflTransGen.head ?_ hR, hs, ?_⟩
        · exact strip_step.pointer (.ptr T cv) rfl
            (by simp [is_function_ptr, is_pointer, std.remove_pointer, hf])
        · simp [raw_type, is_function_ptr, is_pointer, std.remove_pointer, hf, he]
  | .lref T => by
      obtain ⟨R, hR, hs, he⟩ := raw_type_strips T
      exact ⟨R, Relation.ReflTransGen.head (strip_step.reference (.lref T) rfl) hR, hs,
        by simp [raw_type, he]⟩
  | .rref T => by
      obtain ⟨R, hR, hs, he⟩ := raw_type_strips T
      exact ⟨R, Relation.ReflTransGen.head (strip_step.reference (.rref T) rfl) hR, hs,
        by simp [raw_type, he]⟩
  | .named name cv =>
      ⟨.named name cv, Relation.ReflTransGen.refl, ⟨rfl, by simp [is_pointer]⟩, rfl⟩
  | .arr elem extent =>
      ⟨.arr elem extent, Relation.ReflTransGen.refl, ⟨rfl, by simp [is_pointer]⟩, rfl⟩
  | .func ret params quals =>
      ⟨.func ret params quals, Relation.ReflTransGen.refl, ⟨rfl, by simp [is_pointer]⟩, rfl⟩
  | .memptr cls member cv =>
      ⟨.memptr cls member cv, Relation.ReflTransGen.refl, ⟨rfl, by simp [is_pointer]⟩, rfl⟩
  | .tmpl name args cv =>
      ⟨.tmpl name args cv, Relation.ReflTransGen.refl, ⟨rfl, by simp [is_pointer]⟩, rfl⟩

theorem stripped_raw_type (T : Ty) : stripped (raw_type T) := by
  obtain ⟨R, _, hs, he⟩ := raw_type_strips T
  rw [he]
  exact stripped_remove_cv R hs

theorem remove_cv_raw_type (T : Ty) : remove_cv (raw_type T) = raw_type T := by
  obtain ⟨R, _, _, he⟩ := raw_type_strips T
  rw [he]
  exact std_remove_cv_idem R

theorem strip_step_raw_type {T U : Ty} (h : strip_step T U) : raw_type T = raw_type U := by
  cases h with
  | reference hr => cases T <;> simp_all [is_reference, raw_type, remove_reference]
  | pointer hp hf =>
      cases T <;> simp_all [is_pointer, raw_type, std.remove_pointer]

theorem strips_raw_type {T U : Ty} (h : Relation.ReflTransGen strip_step T U) :
    raw_type T = raw_type U := by
  induction h with
  | refl => rfl
  | tail _ hstep ih => rw [ih, strip_step_raw_type hstep]

theorem stripped_no_step {R : Ty} (h : stripped R) (U : Ty) : ¬ strip_step R U := by
  intro hstep
  obtain ⟨h1, h2⟩ := h
  cases hstep with
  | reference hr => simp [h1] at hr
  | pointer hp hf => simp [h2 hp] at hf

theorem stripped_of_function_ptr {F : Ty} (h : is_function_ptr F = true) : stripped F := by
  cases F <;> simp_all [stripped, is_function_ptr, is_pointer, is_reference]

theorem pointer_count_of_stripped {R : Ty} (h : stripped R) : pointer_count R = 0 := by
  obtain ⟨_, h2⟩ := h
  cases R <;> simp_all [pointer_count, pointer_count_impl, is_pointer]

/-- C1: `raw_type` is idempotent: for every type `T`,
`raw_type<raw_type<T>::type>::type` is `raw_type<T>::type`. -/
theorem raw_type_idempotent (T : Ty) : raw_type (raw_type T) = raw_type T := by
  rw [raw_type_of_stripped _ (stripped_raw_type T)]
  exact remove_cv_raw_type T

/-- C2: for every type `T`, `pointer_count<raw_type<T>::type>::value` is 0,
also when `T` ends in a function pointer or a member pointer. -/
theorem pointer_count_raw_type (T : Ty) : pointer_count (raw_type T) = 0 :=
  pointer_count_of_stripped (stripped_raw_type T)

theorem is_function_pointer_layers (B : Ty) (cvs : List CV)
    (hfun : is_function B = false) : is_function (pointer_layers B cvs) = false := by
  cases cvs with
  | nil => exact hfun
  | cons cv inner => rfl

/-- C3: `pointer_count` counts ordinary pointer layers.  For every base type
`B` that is not an ordinary pointer and every list of `n` pointer layers, each
with its own qualifier, put on `B`, `pointer_count` is `n`.  The layers are
ordinary pointer layers: a layer put directly on a function type would be a
function-pointer layer, so with `n > 0` the base is not a function type.  In
particular `pointer_count<char>` is 0, `pointer_count<char*>` is 1,
`pointer_count<char**>` is 2 and `pointer_count` of the function pointer
`void(*)()` is 0. -/
theorem pointer_count_pointer_layers (B : Ty) (cvs : List CV)
    (hB : is_ordinary_pointer B = false)
    (hfun : cvs ≠ [] → is_function B = false) :
    pointer_count (pointer_layers B cvs) = cvs.length ∧
    pointer_count char_type = 0 ∧
    pointer_count (.ptr char_type CV.none) = 1 ∧
    pointer_count (.ptr (.ptr char_type CV.none) CV.none) = 2 ∧
    pointer_count (.ptr void_function CV.none) = 0 := by
  refine ⟨?_, rfl, rfl, rfl, rfl⟩
  induction cvs with
  | nil =>
      cases B <;> simp_all [pointer_layers, pointer_count, pointer_count_impl,
        is_ordinary_pointer, is_pointer, is_member_pointer]
  | cons cv inner ih =>
      have hf : is_function B = false := hfun (by simp)
      have ih2 := ih (fun _ => hf)
      simp only [pointer_count] at ih2
      simp [pointer_layers, pointer_count, pointer_count_impl, is_pointer, is_function_ptr,
        is_member_pointer, std.remove_pointer, is_function_pointer_layers B inner hf, ih2]

/-- C3 at `char * const *`: two layers on `char`, the inner one const. -/
theorem pointer_count_pointer_layers_witness :
    is_ordinary_pointer char_type = false ∧
    ([CV.none, ⟨true, false⟩] ≠ [] → is_function char_type = false) ∧
    pointer_count (pointer_layers char_type [CV.none, ⟨true, false⟩]) = 2 :=
  ⟨rfl, fun _ => rfl,
    (pointer_count_pointer_layers char_type [CV.none, ⟨true, false⟩] rfl (fun _ => rfl)).1⟩

/-- C4: for every type `T`, `raw_type<T>::type` is the type obtained by
removing reference layers and non-function pointer layers until neither
applies, and then the top-level cv-qualifiers: it is never a reference, never
a pointer other than a function pointer, is neither const nor volatile, and a
function-pointer type reached during stripping is returned, its pointer layer
kept (unchanged when it carries no qualifier). -/
theorem raw_type_contract (T : Ty) :
    (∃ R, Relation.ReflTransGen strip_step T R ∧ (∀ U, ¬ strip_step R U) ∧
      raw_type T = remove_cv R) ∧
    is_reference (raw_type T) = false ∧
    (is_pointer (raw_type T) = true → is_function_ptr (raw_type T) = true) ∧
    is_const (raw_type T) = false ∧
    is_volatile (raw_type T) = false ∧
    (∀ F, Relation.ReflTransGen strip_step T F → is_function_ptr F = true →
      raw_type T = remove_cv F ∧ is_function_ptr (raw_type T) = true ∧
      (is_const F = false → is_volatile F = false → raw_type T = F)) := by
  obtain ⟨R, hR, hs, he⟩ := raw_type_strips T
  refine ⟨⟨R, hR, stripped_no_step hs, he⟩, (stripped_raw_type T).1, (stripped_raw_type T).2,
    ?_, ?_, ?_⟩
  · rw [he]; exact is_const_remove_cv R
  · rw [he]; exact is_volatile_remove_cv R
  · intro F hF hfp
    have h1 : raw_type T = remove_cv F := by
      rw [strips_raw_type hF]
      exact raw_type_of_stripped F (stripped_of_function_ptr hfp)
    refine ⟨h1, ?_, ?_⟩
    · rw [h1]
      simpa [remove_cv, is_function_ptr_remove_cv] using hfp
    · intro hc hv
      rw [h1]
      cases F with
      | ptr pointee cv =>
          cases cv
          simp_all [remove_cv, std.remove_cv, is_const, is_volatile, CV.none]
      | _ => simp [is_function_ptr, is_pointer] at hfp

/-! ## The array decomposer -/

theorem arr_ne_elem (elem : Ty) (extent : Option Nat) : Ty.arr elem extent ≠ elem := by
  intro h
  have hs := congrArg sizeOf h
  simp at hs
  omega

/-- Entered with the flag `false`, `concat_array_types` appends the chain of
sub-types of `T` up to and including its first fixed point. -/
theorem concat_array_types_chain (sub_type : Ty → Ty) :
    ∀ (n fuel : Nat) (Types : List Ty) (T : Ty), n < fuel →
      (∀ i, i < n → sub_type (sub_type^[i] T) ≠ sub_type^[i] T) →
      sub_type (sub_type^[n] T) = sub_type^[n] T →
      concat_array_types sub_type fuel Types T false
        = some (Types ++ sub_type_chain sub_type n T)
  | 0, fuel + 1, Types, T, _, _, hfix => by
      simp only [Function.iterate_zero, id_eq] at hfix
      simp [concat_array_types, sub_type_chain, is_same, hfix]
  | n + 1, fuel + 1, Types, T, hlt, hne, hfix => by
      have h0 : T ≠ sub_type T := fun h => hne 0 (Nat.succ_pos n) h.symm
      have ih := concat_array_types_chain sub_type n fuel (Types ++ [T]) (sub_type T)
        (Nat.lt_of_succ_lt_succ hlt)
        (fun i hi => by
          have := hne (i + 1) (Nat.succ_lt_succ hi)
          simpa [Function.iterate_succ_apply] using this)
        (by simpa [Function.iterate_succ_apply] using hfix)
      simp [concat_array_types, sub_type_chain, is_same, h0, ih]

theorem concat_array_types_native (E : Ty) (hE : native_array_sub_type E = E) :
    ∀ (extents : List Nat) (fuel : Nat) (Types : List Ty), extents.length < fuel →
      concat_array_types native_array_sub_type fuel Types (native_array E extents) false
        = some (Types ++ native_array_levels E extents)
  | [], fuel + 1, Types, _ => by
      simp [concat_array_types, native_array, native_array_levels, is_same, hE]
  | N :: inner, fuel + 1, Types, hlt => by
      have ih := concat_array_types_native E hE inner fuel (Types ++ [native_array E (N :: inner)])
        (Nat.lt_of_succ_lt_succ hlt)
      have hne : native_array E (N :: inner) ≠ native_array E inner :=
        arr_ne_elem (native_array E inner) (some N)
      have hsub : native_array_sub_type (native_array E (N :: inner)) = native_array E inner := rfl
      rw [concat_array_types, hsub]
      simp only [is_same, hne, decide_False]
      rw [ih]
      simp [native_array_levels]

theorem native_array_levels_length (E : Ty) :
    ∀ extents : List Nat, (native_array_levels E extents).length = extents.length + 1
  | [] => rfl
  | N :: inner => by simp [native_array_levels, native_array_levels_length E inner]

theorem native_array_levels_get (E : Ty) :
    ∀ (extents : List Nat) (i : Nat), i ≤ extents.length →
      (native_array_levels E extents).get? i = some (native_array E (extents.drop i))
  | [], 0, _ => rfl
  | N :: inner, 0, _ => rfl
  | N :: inner, i + 1, h => by
      simpa [native_array_levels] using
        native_array_levels_get E inner i (Nat.le_of_succ_le_succ h)

theorem array_rank_type_list_native (E : Ty) (hE : native_array_sub_type E = E)
    (extents : List Nat) (fuel : Nat) (hk : 1 ≤ extents.length) (hfuel : extents.length < fuel) :
    array_rank_type_list native_array_sub_type fuel (native_array E extents)
      = some (native_array_levels E extents) := by
  cases extents with
  | nil => simp at hk
  | cons N inner =>
      have hne : native_array E (N :: inner) ≠ native_array E inner :=
        arr_ne_elem (native_array E inner) (some N)
      have hsub : native_array_sub_type (native_array E (N :: inner)) = native_array E inner := rfl
      rw [array_rank_type_list, hsub]
      simp only [is_same, hne, decide_False]
      rw [concat_array_types_native E hE (N :: inner) fuel [] hfuel]
      simp

theorem array_rank_type_list_fixed (sub_type : Ty → Ty) (fuel : Nat) (T : Ty)
    (hT : sub_type T = T) : array_rank_type_list sub_type fuel T = some [] := by
  cases fuel <;> simp [array_rank_type_list, concat_array_types, is_same, hT]

/-- C5: for the native array `T` of `k >= 1` dimensions over an element type
that is not array-like (adapter: the sub-type of `U[N]` is `U`, of any other
type the type itself), `rank<T>::value` is `k` and for every `i < k`
`rank_type<T, i>::type` is `T` with its `i` outermost extents removed; the
instantiation ends within any depth above `k`, and `k` fits `std::size_t`.
For `int[2][10][4]` the rank is 3 and the rank types 0, 1, 2 are
`int[2][10][4]`, `int[10][4]`, `int[4]`. -/
theorem rank_native_array (E : Ty) (extents : List Nat) (fuel : Nat)
    (hE : native_array_sub_type E = E) (hk : 1 ≤ extents.length)
    (hsize : extents.length < 2 ^ size_t_bits) (hfuel : extents.length < fuel) :
    (rank native_array_sub_type fuel (native_array E extents) = some extents.length ∧
      ∀ i, i < extents.length →
        rank_type native_array_sub_type fuel (native_array E extents) i
          = some (native_array E (extents.drop i))) ∧
    rank native_array_sub_type 4 (native_array int_type [2, 10, 4]) = some 3 ∧
    rank_type native_array_sub_type 4 (native_array int_type [2, 10, 4]) 0
      = some (native_array int_type [2, 10, 4]) ∧
    rank_type native_array_sub_type 4 (native_array int_type [2, 10, 4]) 1
      = some (native_array int_type [10, 4]) ∧
    rank_type native_array_sub_type 4 (native_array int_type [2, 10, 4]) 2
      = some (native_array int_type [4]) := by
  refine ⟨⟨?_, ?_⟩, by decide, by decide, by decide, by decide⟩
  · rw [rank, array_rank_type_list_native E hE extents fuel hk hfuel]
    simp only [Option.map_some', rank_impl, native_array_levels_length]
    generalize 2 ^ size_t_bits = M at hsize
    have h2 : extents.length + 1 + M - 1 = extents.length + M := by omega
    rw [h2, Nat.add_mod_right, Nat.mod_eq_of_lt hsize]
  · intro i hi
    rw [rank_type, array_rank_type_list_native E hE extents fuel hk hfuel]
    simpa using native_array_levels_get E extents i (Nat.le_of_lt hi)

/-- C5 at `const char[3][5]`: rank 2, and rank type 1 is `const char[5]`. -/
theorem rank_native_array_witness :
    native_array_sub_type (.named "char" ⟨true, false⟩) = .named "char" ⟨true, false⟩ ∧
    1 ≤ [3, 5].length ∧ [3, 5].length < 2 ^ size_t_bits ∧ [3, 5].length < 3 ∧
    rank native_array_sub_type 3 (native_array (.named "char" ⟨true, false⟩) [3, 5]) = some 2 ∧
    rank_type native_array_sub_type 3 (native_array (.named "char" ⟨true, false⟩) [3, 5]) 1
      = some (native_array (.named "char" ⟨true, false⟩) [5]) :=
  have hsize : [3, 5].length < 2 ^ size_t_bits := by norm_num [size_t_bits]
  have h := (rank_native_array (.named "char" ⟨true, false⟩) [3, 5] 3 rfl (by decide)
    hsize (by decide)).1
  ⟨rfl, by decide, hsize, by decide, h.1, h.2 1 (by decide)⟩

/-- C6: the claim is that `rank<T>::value` is 0 for every `T` that is not
array-like.  On `int` (adapter sub-type `int`) the tuple
`array_rank_type_list<int>::types` is empty and `rank<int>::value` is
`sizeof...(Types) - 1` at 0 in `std::size_t`, the largest value of the type,
whatever the depth allowed. -/
theorem rank_int_wraps (fuel : Nat) :
    native_array_sub_type int_type = int_type ∧
    rank native_array_sub_type fuel int_type = some 18446744073709551615 := by
  refine ⟨rfl, ?_⟩
  rw [rank, array_rank_type_list_fixed native_array_sub_type fuel int_type rfl]
  decide

/-- C7: the claim is that `array_rank_type_list<T>::types` is
`[T, sub_type(T), ...]` up to and including the first fixed point, `[T]` for
a `T` that is not array-like.  For a `T` that differs from its sub-type the
list is that chain and the rank the number of steps below `T`; for a `T` equal
to its sub-type, as `int`, the list is empty, not `[T]`. -/
theorem array_rank_type_list_chain_or_empty :
    (∀ (sub_type : Ty → Ty) (n fuel : Nat) (T : Ty), n < fuel → T ≠ sub_type T →
      (∀ i, i < n → sub_type (sub_type^[i] T) ≠ sub_type^[i] T) →
      sub_type (sub_type^[n] T) = sub_type^[n] T →
      array_rank_type_list sub_type fuel T = some (sub_type_chain sub_type n T)) ∧
    (∀ (sub_type : Ty → Ty) (fuel : Nat) (T : Ty), sub_type T = T →
      array_rank_type_list sub_type fuel T = some []) ∧
    (∀ fuel : Nat, array_rank_type_list native_array_sub_type fuel int_type = some [] ∧
      array_rank_type_list native_array_sub_type fuel int_type ≠ some [int_type]) := by
  refine ⟨?_, ?_, ?_⟩
  · intro sub_type n fuel T hlt hne hchain hfix
    rw [array_rank_type_list]
    simp only [is_same, hne, decide_False]
    simpa using concat_array_types_chain sub_type n fuel [] T hlt hchain hfix
  · intro sub_type fuel T hT
    exact array_rank_type_list_fixed sub_type fuel T hT
  · intro fuel
    rw [array_rank_type_list_fixed native_array_sub_type fuel int_type rfl]
    exact ⟨rfl, by decide⟩

/-! ## `is_one_dim_char_array` -/

/-- C8: the claim is that `is_one_dim_char_array<T>::value` is true iff `T`
is a native array of rank 1 whose element type is `char`.  The header gives
true for `char[10]`, false for `int[10]` and for `char`, and true for the
array of char pointers `char*[10]`, whose element type is not `char`: the
element type is compared after `raw_array_type` has removed its pointer
layers. -/
theorem is_one_dim_char_array_of_pointers :
    is_one_dim_char_array (.arr char_type (some 10)) = some true ∧
    is_one_dim_char_array (.arr int_type (some 10)) = some false ∧
    is_one_dim_char_array char_type = some false ∧
    is_one_dim_char_array (.arr (.ptr char_type CV.none) (some 10)) = some true ∧
    Ty.ptr char_type CV.none ≠ char_type := by
  refine ⟨?_, ?_, ?_, ?_, by decide⟩ <;>
    simp [is_one_dim_char_array, raw_array_type, raw_type, remove_cv, std.remove_cv,
      std.is_array, std.rank, is_same, char_type, int_type, CV.none, is_pointer,
      is_function_ptr, is_function, std.remove_pointer]

/-! ## The type-list algebra -/

theorem static_any_of_is_same_pack (T : Ty) :
    ∀ Types : TyList, static_any_of (is_same_pack T Types) = true ↔ T ∈ Types.toList
  | .nil => by simp [is_same_pack, static_any_of, TyList.toList]
  | .cons head tail => by
      by_cases h : T = head
      · simp [is_same_pack, static_any_of, TyList.toList, is_same, h]
      · simp [is_same_pack, static_any_of, TyList.toList, is_same, h,
          static_any_of_is_same_pack T tail]

/-- C9, as the claim states it: `contains<T, T1>` with `T` and `T1` both
`std::vector<int>` is false although `T` is identical to `T1`, and
`contains<int, type_list<int>>` is true although `int` is not
`type_list<int>`. -/
theorem contains_single_template_counterexample :
    (contains vector_int (.cons vector_int .nil) = false ∧
      vector_int ∈ (TyList.cons vector_int .nil).toList) ∧
    (contains int_type (.cons (type_list [int_type]) .nil) = true ∧
      int_type ∉ (TyList.cons (type_list [int_type]) .nil).toList) := by
  decide

/-- C9, amended: for every type `T` and every list `T1..Tn` that is not one
single cv-unqualified specialisation of a template with type parameters
only, `contains<T, T1, ..., Tn>::value` is true iff `T` is identical to some
`Ti`. -/
theorem contains_iff_mem (T : Ty) (Types : TyList)
    (h : ∀ name args, Types ≠ .cons (.tmpl name args CV.none) .nil) :
    contains T Types = true ↔ T ∈ Types.toList := by
  have key : contains T Types = static_any_of (is_same_pack T Types) := by
    cases Types with
    | nil => simp [contains]
    | cons head tail =>
        cases tail with
        | cons second rest => simp [contains]
        | nil =>
            cases head with
            | tmpl name args cv =>
                by_cases hcv : cv = CV.none
                · exact absurd (by rw [hcv]) (h name args)
                · simp [contains, hcv]
            | _ => simp [contains]
  rw [key]
  exact static_any_of_is_same_pack T Types

/-- C9 at `contains<int, bool, double, int>` (true) and
`contains<int, bool, double, void>` (false), and on a list of two template
specialisations. -/
theorem contains_iff_mem_witness :
    (∀ name args, TyList.ofList [bool_type, double_type, int_type]
      ≠ .cons (.tmpl name args CV.none) .nil) ∧
    (contains int_type (TyList.ofList [bool_type, double_type, int_type]) = true ↔
      int_type ∈ (TyList.ofList [bool_type, double_type, int_type]).toList) ∧
    contains int_type (TyList.ofList [bool_type, double_type, int_type]) = true ∧
    contains int_type (TyList.ofList [bool_type, double_type, void_type]) = false ∧
    contains vector_int (TyList.ofList [type_list [int_type], vector_int]) = true :=
  ⟨fun _ _ => by simp [TyList.ofList],
    contains_iff_mem int_type (TyList.ofList [bool_type, double_type, int_type])
      (fun _ _ => by simp [TyList.ofList]),
    by decide, by decide, by decide⟩

/-- C10: for every type `T`, every container template and every list
`T1..Tn`, `contains<T, C<T1, ..., Tn>>::value` is
`contains<T, T1, ..., Tn>::value`; the container template does not matter. -/
theorem contains_unwraps_container (T : Ty) (C D : String) (Types : TyList) :
    contains T (.cons (.tmpl C Types CV.none) .nil) = contains T Types ∧
    contains T (.cons (.tmpl C Types CV.none) .nil)
      = contains T (.cons (.tmpl D Types CV.none) .nil) ∧
    contains int_type (.cons (type_list [bool_type, double_type, int_type]) .nil) = true ∧
    contains int_type (.cons (type_list [bool_type, double_type, void_type]) .nil) = false := by
  refine ⟨?_, ?_, by decide, by decide⟩ <;> simp [contains]

/-! ## `is_type_in_list` -/

theorem static_any_of_cons (b : Bool) (tail : List Bool) :
    static_any_of (b :: tail) = (b || static_any_of tail) := by
  cases b <;> simp [static_any_of]

theorem contains_eq_any (T : Ty) (Types : TyList)
    (h : ∀ name args, Types ≠ .cons (.tmpl name args CV.none) .nil) :
    contains T Types = static_any_of (is_same_pack T Types) := by
  cases Types with
  | nil => simp [contains]
  | cons head tail =>
      cases tail with
      | cons second rest => simp [contains]
      | nil =>
          cases head with
          | tmpl name args cv =>
              by_cases hcv : cv = CV.none
              · exact absurd (by rw [hcv]) (h name args)
              · simp [contains, hcv]
          | _ => simp [contains]

/-- On a pack whose last type is not a template specialisation,
`is_type_in_list_impl` compares `T` with every type of the pack. -/
theorem is_type_in_list_impl_eq_any (T : Ty) :
    ∀ Ts : TyList, Ts ≠ .nil →
      (∀ U, TyList_last Ts = some U → is_template_specialisation U = false) →
      is_type_in_list_impl T Ts = some (static_any_of (is_same_pack T Ts))
  | .nil, hne, _ => absurd rfl hne
  | .cons U .nil, _, hlast => by
      have hU := hlast U rfl
      cases U <;>
        simp_all [is_type_in_list_impl, is_same_pack, static_any_of_cons, static_any_of,
          is_template_specialisation]
  | .cons T2 (.cons U rest), _, hlast => by
      have ih := is_type_in_list_impl_eq_any T (.cons U rest) (by simp)
        (fun V hV => hlast V (by simpa [TyList_last] using hV))
      simp [is_type_in_list_impl, ih, is_same_pack, static_any_of_cons]

theorem not_single_template_of_last (Ts : TyList)
    (hlast : ∀ U, TyList_last Ts = some U → is_template_specialisation U = false) :
    ∀ name args, Ts ≠ .cons (.tmpl name args CV.none) .nil := by
  intro name args h
  have := hlast (.tmpl name args CV.none) (by rw [h]; rfl)
  simp [is_template_specialisation] at this

/-- Where the last member is not a template specialisation,
`is_type_in_list` on the wrapped list is `contains` on it, and is true iff
`T` is one of the members. -/
theorem is_type_in_list_eq_contains (T : Ty) (L : String) (Ts : TyList)
    (hne : Ts ≠ .nil)
    (hlast : ∀ U, TyList_last Ts = some U → is_template_specialisation U = false) :
    is_type_in_list T (.tmpl L Ts CV.none)
      = some (contains T (.cons (.tmpl L Ts CV.none) .nil)) ∧
    (is_type_in_list T (.tmpl L Ts CV.none) = some true ↔ T ∈ Ts.toList) := by
  have h1 : is_type_in_list T (.tmpl L Ts CV.none)
      = some (static_any_of (is_same_pack T Ts)) := by
    simp [is_type_in_list, is_type_in_list_impl, is_type_in_list_impl_eq_any T Ts hne hlast]
  have h2 : contains T (.cons (.tmpl L Ts CV.none) .nil)
      = static_any_of (is_same_pack T Ts) := by
    simp [contains, contains_eq_any T Ts (not_single_template_of_last Ts hlast)]
  refine ⟨by rw [h1, h2], ?_⟩
  rw [h1]
  simpa using static_any_of_is_same_pack T Ts

/-- C11: the claim is that `is_type_in_list<T, L<T1, ..., Tn>>::value` is
`contains<T, L<T1, ..., Tn>>::value`, true iff `T` is identical to some `Ti`.
The header gives true for `is_type_in_list<int, primitive_list<bool, double,
int>>` and false with `void` for `int`, and agrees with `contains` on every
list whose last member is not a template specialisation.  But
`is_type_in_list<int, type_list<bool, type_list<int>>>` is true, while
`contains` on the same list is false and `int` is neither `bool` nor
`type_list<int>`: the recursion ends in `is_type_in_list_impl<T, Tn>`, where
the specialisation for `List<Ts...>` is chosen again. -/
theorem is_type_in_list_unwraps_last_member :
    is_type_in_list int_type (primitive_list [bool_type, double_type, int_type]) = some true ∧
    is_type_in_list int_type (primitive_list [bool_type, double_type, void_type])
      = some false ∧
    (∀ (T : Ty) (L : String) (Ts : TyList), Ts ≠ .nil →
      (∀ U, TyList_last Ts = some U → is_template_specialisation U = false) →
      is_type_in_list T (.tmpl L Ts CV.none)
        = some (contains T (.cons (.tmpl L Ts CV.none) .nil)) ∧
      (is_type_in_list T (.tmpl L Ts CV.none) = some true ↔ T ∈ Ts.toList)) ∧
    is_type_in_list int_type (type_list [bool_type, type_list [int_type]]) = some true ∧
    contains int_type (.cons (type_list [bool_type, type_list [int_type]]) .nil) = false ∧
    int_type ∉ [bool_type, type_list [int_type]] := by
  refine ⟨by decide, by decide, ?_, by decide, by decide, by decide⟩
  intro T L Ts hne hlast
  exact is_type_in_list_eq_contains T L Ts hne hlast

/-! ## `max_sizeof_list`, `max_alignof_list` -/

theorem first_largest_value (f : Ty → Nat) :
    ∀ (rest : TyList) (W : Ty),
      f (first_largest f W rest) = max (f W) (max_over f rest.toList)
  | .nil, W => by simp [first_largest, TyList.toList, max_over]
  | .cons T2 U, W => by
      rw [first_largest, first_largest_value f U, TyList.toList, max_over]
      split <;> omega

theorem first_largest_mem (f : Ty → Nat) :
    ∀ (rest : TyList) (W : Ty), first_largest f W rest ∈ W :: rest.toList
  | .nil, W => by simp [first_largest]
  | .cons T2 U, W => by
      have ih := first_largest_mem f U (if f W ≥ f T2 then W else T2)
      rw [first_largest, TyList.toList]
      by_cases hc : f W ≥ f T2
      · simp only [hc, if_true] at ih ⊢
        simp only [List.mem_cons] at ih ⊢
        tauto
      · simp only [hc, if_false] at ih ⊢
        simp only [List.mem_cons] at ih ⊢
        tauto

/-- The instantiation with two types or more comes down to the one with the
first largest type alone. -/
theorem max_sizeof_list_impl_first_largest (f : Ty → Nat) :
    ∀ (rest : TyList) (W : Ty),
      max_sizeof_list_impl f (.cons W rest)
        = max_sizeof_list_impl f (.cons (first_largest f W rest) .nil)
  | .nil, W => rfl
  | .cons T2 U, W => by
      have step : max_sizeof_list_impl f (.cons W (.cons T2 U))
          = max_sizeof_list_impl f (.cons (if f W ≥ f T2 then W else T2) U) := by
        conv_lhs => rw [max_sizeof_list_impl]
      rw [step, first_largest]
      exact max_sizeof_list_impl_first_largest f U _

theorem max_sizeof_list_impl_single (f : Ty → Nat) (W : Ty)
    (hW : is_template_specialisation W = false) :
    max_sizeof_list_impl f (.cons W .nil) = some (f W) := by
  cases W <;> simp_all [max_sizeof_list_impl, is_template_specialisation]

theorem max_alignof_list_impl_first_largest (f : Ty → Nat) :
    ∀ (rest : TyList) (W : Ty),
      max_alignof_list_impl f (.cons W rest)
        = max_alignof_list_impl f (.cons (first_largest f W rest) .nil)
  | .nil, W => rfl
  | .cons T2 U, W => by
      have step : max_alignof_list_impl f (.cons W (.cons T2 U))
          = max_alignof_list_impl f (.cons (if f W ≥ f T2 then W else T2) U) := by
        conv_lhs => rw [max_alignof_list_impl]
      rw [step, first_largest]
      exact max_alignof_list_impl_first_largest f U _

theorem max_alignof_list_impl_single (f : Ty → Nat) (W : Ty)
    (hW : is_template_specialisation W = false) :
    max_alignof_list_impl f (.cons W .nil) = some (f W) := by
  cases W <;> simp_all [max_alignof_list_impl, is_template_specialisation]

/-- C12: the claim is that `max_sizeof_list<T1, ..., Tn>::value` is the maximum
of the sizes of the `Ti`, for members of any kind.  The header reduces the
list to its first largest member and gives the maximum whenever that member
is not a template specialisation (`<char, int, double>` gives the sizes of
`double`, `<char, type_list<int>>` gives 1), and by design unwraps a list
wrapped in one container.  But the member that survives the recursion is
unwrapped as well when it is a template specialisation: with the sizes of
the empty class `type_list<double>` and of `bool` both 1 and of `double` 8,
`max_sizeof_list<type_list<double>, bool>::value` is 8, above every member. -/
theorem max_sizeof_list_unwraps_largest :
    max_sizeof_list sizeof_lp64 (TyList.ofList [char_type, int_type, double_type])
      = some (sizeof_lp64 double_type) ∧
    max_sizeof_list sizeof_lp64 (TyList.ofList [char_type, type_list [int_type]]) = some 1 ∧
    max_over sizeof_lp64 [char_type, type_list [int_type]] = 1 ∧
    (∀ (f : Ty → Nat) (W : Ty) (rest : TyList),
      max_sizeof_list f (.cons W rest) = max_sizeof_list f (.cons (first_largest f W rest) .nil) ∧
      first_largest f W rest ∈ (TyList.cons W rest).toList ∧
      f (first_largest f W rest) = max_over f (TyList.cons W rest).toList ∧
      (is_template_specialisation (first_largest f W rest) = false →
        max_sizeof_list f (.cons W rest) = some (max_over f (TyList.cons W rest).toList))) ∧
    (∀ (f : Ty → Nat) (L : String) (Ts : TyList),
      max_sizeof_list f (.cons (.tmpl L Ts CV.none) .nil) = max_sizeof_list f Ts) ∧
    max_sizeof_list sizeof_lp64 (TyList.ofList [type_list [double_type], bool_type]) = some 8 ∧
    max_over sizeof_lp64 [type_list [double_type], bool_type] = 1 := by
  have hval : ∀ (f : Ty → Nat) (W : Ty) (rest : TyList),
      f (first_largest f W rest) = max_over f (TyList.cons W rest).toList := by
    intro f W rest
    rw [first_largest_value f rest W, TyList.toList, max_over]
  refine ⟨?_, ?_, by decide, ?_, ?_, ?_, by decide⟩
  · simp [max_sizeof_list, max_sizeof_list_impl, TyList.ofList, sizeof_lp64, char_type, int_type, double_type]
  · simp [max_sizeof_list, max_sizeof_list_impl, TyList.ofList, type_list, sizeof_lp64, char_type, int_type,
      CV.none]
  · intro f W rest
    refine ⟨max_sizeof_list_impl_first_largest f rest W,
      by simpa [TyList.toList] using first_largest_mem f rest W, hval f W rest, ?_⟩
    intro hplain
    rw [max_sizeof_list, max_sizeof_list_impl_first_largest, max_sizeof_list_impl_single f _ hplain, hval f W rest]
  · intro f L Ts
    simp [max_sizeof_list, max_sizeof_list_impl]
  · simp [max_sizeof_list, max_sizeof_list_impl, TyList.ofList, type_list, sizeof_lp64, double_type, bool_type,
      CV.none]

/-- C13: the claim is that `max_alignof_list<T1, ..., Tn>::value` is the maximum
of the alignments of the `Ti`, for members of any kind.  The header reduces the
list to its first largest member and gives the maximum whenever that member
is not a template specialisation (`<char, int, double>` gives the alignments of
`double`, `<char, type_list<int>>` gives 1), and by design unwraps a list
wrapped in one container.  But the member that survives the recursion is
unwrapped as well when it is a template specialisation: with the alignments of
the empty class `type_list<double>` and of `bool` both 1 and of `double` 8,
`max_alignof_list<type_list<double>, bool>::value` is 8, above every member. -/
theorem max_alignof_list_unwraps_largest :
    max_alignof_list alignof_lp64 (TyList.ofList [char_type, int_type, double_type])
      = some (alignof_lp64 double_type) ∧
    max_alignof_list alignof_lp64 (TyList.ofList [char_type, type_list [int_type]]) = some 1 ∧
    max_over alignof_lp64 [char_type, type_list [int_type]] = 1 ∧
    (∀ (f : Ty → Nat) (W : Ty) (rest : TyList),
      max_alignof_list f (.cons W rest) = max_alignof_list f (.cons (first_largest f W rest) .nil) ∧
      first_largest f W rest ∈ (TyList.cons W rest).toList ∧
      f (first_largest f W rest) = max_over f (TyList.cons W rest).toList ∧
      (is_template_specialisation (first_largest f W rest) = false →
        max_alignof_list f (.cons W rest) = some (max_over f (TyList.cons W rest).toList))) ∧
    (∀ (f : Ty → Nat) (L : String) (Ts : TyList),
      max_alignof_list f (.cons (.tmpl L Ts CV.none) .nil) = max_alignof_list f Ts) ∧
    max_alignof_list alignof_lp64 (TyList.ofList [type_list [double_type], bool_type]) = some 8 ∧
    max_over alignof_lp64 [type_list [double_type], bool_type] = 1 := by
  have hval : ∀ (f : Ty → Nat) (W : Ty) (rest : TyList),
      f (first_largest f W rest) = max_over f (TyList.cons W rest).toList := by
    intro f W rest
    rw [first_largest_value f rest W, TyList.toList, max_over]
  refine ⟨?_, ?_, by decide, ?_, ?_, ?_, by decide⟩
  · simp [max_alignof_list, max_alignof_list_impl, TyList.ofList, alignof_lp64, char_type, int_type, double_type]
  · simp [max_alignof_list, max_alignof_list_impl, TyList.ofList, type_list, alignof_lp64, char_type, int_type,
      CV.none]
  · intro f W rest
    refine ⟨max_alignof_list_impl_first_largest f rest W,
      by simpa [TyList.toList] using first_largest_mem f rest W, hval f W rest, ?_⟩
    intro hplain
    rw [max_alignof_list, max_alignof_list_impl_first_largest, max_alignof_list_impl_single f _ hplain, hval f W rest]
  · intro f L Ts
    simp [max_alignof_list, max_alignof_list_impl]
  · simp [max_alignof_list, max_alignof_list_impl, TyList.ofList, type_list, alignof_lp64, double_type, bool_type,
      CV.none]

/-! ## `get_void_ptr` -/

/-- C15: for every type `T`, with `Tp` the type `T` without its reference:
if `Tp` is a function type, `decay<T>::type` is `std::add_pointer<Tp>::type`,
the pointer to `Tp` (for a function type without cv-qualifier-seq);
otherwise it is `Tp` without its top-level cv-qualifiers, and an array stays
an array with the same extents, never a pointer.  `decay<int&>` is `int`,
`decay<int[5]>` is `int[5]`, `decay<void()>` is `void(*)()`. -/
theorem decay_contract (T : Ty) :
    (is_function (remove_reference T) = true →
      decay T = add_pointer (remove_reference T) ∧
      ∀ ret params, remove_reference T = .func ret params CV.none →
        decay T = .ptr (remove_reference T) CV.none) ∧
    (is_function (remove_reference T) = false → decay T = remove_cv (remove_reference T)) ∧
    (∀ elem extent, remove_reference T = .arr elem extent →
      decay T = .arr (remove_cv elem) extent ∧ is_pointer (decay T) = false ∧
      std.rank (decay T) = std.rank (remove_reference T)) ∧
    decay (.lref int_type) = int_type ∧
    decay (.arr int_type (some 5)) = .arr int_type (some 5) ∧
    decay void_function = .ptr void_function CV.none ∧
    decay (.lref void_function) = .ptr void_function CV.none := by
  have hrank : ∀ U : Ty, std.rank (std.remove_cv U) = std.rank U := fun U =>
    @Ty.rec (fun V => std.rank (std.remove_cv V) = std.rank V) (fun _ => True)
      (fun _ _ => rfl) (fun _ _ _ => rfl) (fun _ _ => rfl) (fun _ _ => rfl)
      (fun _ _ ih => by simp [std.remove_cv, std.rank, ih])
      (fun _ _ _ _ _ => rfl) (fun _ _ _ _ => rfl) (fun _ _ _ _ => rfl)
      trivial (fun _ _ _ _ => trivial) U
  refine ⟨?_, ?_, ?_, by decide, by decide, by decide, by decide⟩
  · intro hf
    refine ⟨by simp [decay, hf], ?_⟩
    intro ret params he
    simp [decay, he, is_function, add_pointer]
  · intro hf
    simp [decay, hf]
  · intro elem extent he
    simp [decay, he, is_function, remove_cv, std.remove_cv, is_pointer, std.rank, hrank]

/-- C16: for every type `T`, `is_unique_ptr<T>::value` is true iff `T` is
exactly `std::unique_ptr<U>` for some owned type `U`; it is false for
`std::shared_ptr<U>`, raw pointers and value types (and for a const-qualified
`std::unique_ptr<U>`, and for a `std::unique_ptr` with another deleter). -/
theorem is_unique_ptr_iff (T : Ty) :
    (is_unique_ptr T = true ↔ ∃ U, T = unique_ptr U) ∧
    (∀ U, is_unique_ptr (shared_ptr U) = false) ∧
    (∀ U cv, is_unique_ptr (.ptr U cv) = false) ∧
    (∀ name cv, is_unique_ptr (.named name cv) = false) ∧
    (∀ U, is_unique_ptr (.tmpl "std::unique_ptr"
      (.cons U (.cons (default_delete U) .nil)) ⟨true, false⟩) = false) ∧
    (∀ U D, D ≠ default_delete U → is_unique_ptr (unique_ptr_with U D) = false) := by
  refine ⟨⟨?_, ?_⟩, ?_, ?_, ?_, ?_, ?_⟩
  · intro h
    cases T with
    | tmpl name args cv =>
        cases args with
        | nil => simp [is_unique_ptr] at h
        | cons U rest =>
            cases rest with
            | nil => simp [is_unique_ptr] at h
            | cons D more =>
                cases more with
                | cons _ _ => simp [is_unique_ptr] at h
                | nil =>
                    simp only [is_unique_ptr, decide_eq_true_eq] at h
                    obtain ⟨h1, h2, h3⟩ := h
                    exact ⟨U, by rw [h1, h2, h3]; rfl⟩
    | _ => simp [is_unique_ptr] at h
  · rintro ⟨U, rfl⟩
    simp [is_unique_ptr, unique_ptr, unique_ptr_with]
  · intro U; rfl
  · intro U cv; rfl
  · intro name cv; rfl
  · intro U; simp [is_unique_ptr, CV.none]
  · intro U D hD; simp [is_unique_ptr, unique_ptr_with, hD]

/-! ## The capability probes -/

/-- C17: `has_get_type_func` matches the exact signature only.  For every
type `T`, and so for every class type, whose raw type is the class without
qualifier, `has_get_type_func<T>::value` is true iff the class declares a
non-static member function `get_type` with zero parameters, return type
`rttr::type` and const qualification; a class declaring only the non-const
`type get_type()` yields false, a class with no member yields false. -/
theorem has_get_type_func_exact_signature (members : Ty → List member_decl) (T : Ty) :
    (has_get_type_func members T = true ↔
      ∃ m ∈ members (raw_type T), m.name = "get_type" ∧ m.is_static = false ∧
        m.type = .func rttr_type .nil ⟨true, false⟩) ∧
    (∀ name cv, raw_type (.named name cv) = .named name CV.none) ∧
    (∀ name args cv, raw_type (.tmpl name args cv) = .tmpl name args CV.none) ∧
    has_get_type_func example_members (.named "A" CV.none) = true ∧
    has_get_type_func example_members (.named "B" CV.none) = false ∧
    has_get_type_func example_members (.named "C" CV.none) = false := by
  refine ⟨?_, fun _ _ => rfl, fun _ _ _ => rfl, by decide, by decide, by decide⟩
  simp [has_get_type_func, has_get_type_func_impl, check]

/-- C19: the capability probes are evaluated on the raw identity: for all
types `T` and `U` with `raw_type<T>::type` the same as `raw_type<U>::type`,
`has_get_type_func`, `has_get_ptr_func` and `has_get_derived_info_func` each
give the same value on `T` and on `U`; for a class `C` this covers `C*`,
`C**`, `C&`, `const C` and `const C*`. -/
theorem probes_on_raw_type (members : Ty → List member_decl) (T U : Ty)
    (h : raw_type T = raw_type U) :
    has_get_type_func members T = has_get_type_func members U ∧
    has_get_ptr_func members T = has_get_ptr_func members U ∧
    has_get_derived_info_func members T = has_get_derived_info_func members U ∧
    ∀ name : String,
      raw_type (.ptr (.named name CV.none) CV.none) = raw_type (.named name CV.none) ∧
      raw_type (.ptr (.ptr (.named name CV.none) CV.none) CV.none)
        = raw_type (.named name CV.none) ∧
      raw_type (.lref (.named name CV.none)) = raw_type (.named name CV.none) ∧
      raw_type (.named name ⟨true, false⟩) = raw_type (.named name CV.none) ∧
      raw_type (.ptr (.named name ⟨true, false⟩) CV.none) = raw_type (.named name CV.none) := by
  refine ⟨?_, ?_, ?_, fun name => ⟨rfl, rfl, rfl, rfl, rfl⟩⟩
  · simp [has_get_type_func, has_get_type_func_impl, h]
  · simp [has_get_ptr_func, has_get_ptr_func_impl, h]
  · simp [has_get_derived_info_func, has_get_derived_info_func_impl, h]

/-- C19 at the class `A` of the examples and `const A*`. -/
theorem probes_on_raw_type_witness :
    raw_type (.named "A" CV.none) = raw_type (.ptr (.named "A" ⟨true, false⟩) CV.none) ∧
    has_get_type_func example_members (.named "A" CV.none)
      = has_get_type_func example_members (.ptr (.named "A" ⟨true, false⟩) CV.none) ∧
    has_get_type_func example_members (.ptr (.named "A" ⟨true, false⟩) CV.none) = true :=
  ⟨rfl,
    (probes_on_raw_type example_members (.named "A" CV.none)
      (.ptr (.named "A" ⟨true, false⟩) CV.none) rfl).1,
    by decide⟩

/-! ## `raw_array_type` -/

theorem raw_array_type_arr (elem : Ty) (extent : Option Nat) :
    raw_array_type (.arr elem extent) =
      match extent with
      | some _ => raw_array_type (std.remove_cv elem)
      | none => none := by
  cases extent <;> simp [raw_array_type, remove_cv, std.remove_cv]

/-- What `raw_array_type` returns is stripped and carries no qualifier. -/
theorem raw_array_type_stripped (T : Ty) :
    ∀ R, raw_array_type T = some R → stripped R ∧ remove_cv R = R := by
  induction T using raw_array_type.induct with
  | case1 elem extent T val h ih =>
      intro R hR
      simp only [remove_cv, std.remove_cv, Ty.arr.injEq] at h
      obtain ⟨h1, h2⟩ := h
      rw [raw_array_type_arr, h2] at hR
      simp only [h1] at hR
      exact ih R hR
  | case2 elem extent hno =>
      intro R hR
      rw [raw_array_type_arr] at hR
      cases extent with
      | none => simp at hR
      | some N => exact absurd rfl (fun e => hno (std.remove_cv elem) N e)
  | case3 x hx =>
      intro R hR
      have hx2 : raw_array_type x = some (raw_type x) := by
        cases x <;> first | exact absurd rfl (hx _ _) | simp [raw_array_type]
      rw [hx2] at hR
      cases hR
      exact ⟨stripped_raw_type x, remove_cv_raw_type x⟩

/-- C18: the claim is that `raw_array_type<T>::type` is never an array type,
whatever the nesting.  What the trait returns is never cv-qualified, never a
reference and never an ordinary pointer, and `int[2][3]` gives `int`; but an
array behind a reference or a pointer keeps its extents: `int(&)[3]` and
`int(*)[3]` give `int[3]`, and `int(*[2])[3]` gives `int[3]`. -/
theorem raw_array_type_keeps_array_behind_reference :
    (∀ T R, raw_array_type T = some R →
      is_reference R = false ∧ is_ordinary_pointer R = false ∧
      is_const R = false ∧ is_volatile R = false) ∧
    raw_array_type (.arr (.arr int_type (some 3)) (some 2)) = some int_type ∧
    raw_array_type (.lref (.arr int_type (some 3))) = some (.arr int_type (some 3)) ∧
    raw_array_type (.ptr (.arr int_type (some 3)) CV.none) = some (.arr int_type (some 3)) ∧
    raw_array_type (.arr (.ptr (.arr int_type (some 3)) CV.none) (some 2))
      = some (.arr int_type (some 3)) ∧
    std.is_array (.arr int_type (some 3)) = true := by
  refine ⟨?_, ?_, ?_, ?_, ?_, rfl⟩
  · intro T R hR
    obtain ⟨⟨h1, h2⟩, h3⟩ := raw_array_type_stripped T R hR
    refine ⟨h1, ?_, ?_, ?_⟩
    · cases hp : is_pointer R
      · simp [is_ordinary_pointer, hp]
      · simp [is_ordinary_pointer, h2 hp]
    · rw [← h3]; exact is_const_remove_cv R
    · rw [← h3]; exact is_volatile_remove_cv R
  all_goals
    simp [raw_array_type, raw_type, remove_cv, std.remove_cv, int_type, CV.none, is_pointer,
      is_function_ptr, is_function, std.remove_pointer]

/-! ## Consistency of `rank` and `rank_type` -/

/-- A list returned by `concat_array_types`, entered with the flag `false`, is
the chain of sub-types up to the first fixed point. -/
theorem concat_array_types_inv (sub_type : Ty → Ty) :
    ∀ (fuel : Nat) (Types : List Ty) (T : Ty) (L : List Ty),
      concat_array_types sub_type fuel Types T false = some L →
      ∃ n, n < fuel ∧ (∀ i, i < n → sub_type (sub_type^[i] T) ≠ sub_type^[i] T) ∧
        sub_type (sub_type^[n] T) = sub_type^[n] T ∧
        L = Types ++ sub_type_chain sub_type n T
  | 0, Types, T, L, h => by simp [concat_array_types] at h
  | fuel + 1, Types, T, L, h => by
      rw [concat_array_types] at h
      by_cases hfix : T = sub_type T
      · simp only [is_same, hfix.symm, decide_True, concat_array_types] at h
        refine ⟨0, Nat.succ_pos fuel, fun i hi => absurd hi (Nat.not_lt_zero i), ?_, ?_⟩
        · simpa using hfix.symm
        · simpa [sub_type_chain] using h.symm
      · simp only [is_same, hfix, decide_False] at h
        obtain ⟨n, hn, hne, hn_fix, hL⟩ :=
          concat_array_types_inv sub_type fuel (Types ++ [T]) (sub_type T) L h
        refine ⟨n + 1, Nat.succ_lt_succ hn, ?_, ?_, ?_⟩
        · intro i hi
          cases i with
          | zero => simpa using fun e => hfix e.symm
          | succ j =>
              simpa [Function.iterate_succ_apply] using hne j (Nat.lt_of_succ_lt_succ hi)
        · simpa [Function.iterate_succ_apply] using hn_fix
        · simpa [sub_type_chain] using hL

theorem sub_type_chain_length (sub_type : Ty → Ty) :
    ∀ (n : Nat) (T : Ty), (sub_type_chain sub_type n T).length = n + 1
  | 0, _ => rfl
  | n + 1, T => by simp [sub_type_chain, sub_type_chain_length sub_type n]

theorem sub_type_chain_get (sub_type : Ty → Ty) :
    ∀ (n i : Nat) (T : Ty), i ≤ n →
      (sub_type_chain sub_type n T).get? i = some (sub_type^[i] T)
  | 0, 0, _, _ => rfl
  | n + 1, 0, _, _ => rfl
  | n + 1, i + 1, T, h => by
      simpa [sub_type_chain, Function.iterate_succ_apply] using
        sub_type_chain_get sub_type n i (sub_type T) (Nat.le_of_succ_le_succ h)

theorem sub_type_chain_drop (sub_type : Ty → Ty) :
    ∀ (n i : Nat) (T : Ty), i ≤ n →
      (sub_type_chain sub_type n T).drop i = sub_type_chain sub_type (n - i) (sub_type^[i] T)
  | 0, 0, _, _ => rfl
  | n + 1, 0, _, _ => rfl
  | n + 1, i + 1, T, h => by
      simpa [sub_type_chain, Function.iterate_succ_apply] using
        sub_type_chain_drop sub_type n i (sub_type T) (Nat.le_of_succ_le_succ h)

theorem rank_impl_chain (sub_type : Ty → Ty) (n : Nat) (T : Ty) :
    rank_impl (sub_type_chain sub_type n T) = n % 18446744073709551616 := by
  have hM : 2 ^ size_t_bits = 18446744073709551616 := by norm_num [size_t_bits]
  rw [rank_impl, sub_type_chain_length, hM]
  omega

/-- C20: `rank` and the element-type list are consistent under recursive
application: for every array-like type `T` (one that differs from its
sub-type) with `rank<T>::value == k >= 1` and every `i < k`, `rank_type<T, i>`
is a type `Ti` with `rank<Ti>::value == k - i`, and the list of `Ti` is the
list of `T` from index `i` on; the element at index `k - 1` has rank 1. -/
theorem rank_type_consistent (sub_type : Ty → Ty) (fuel : Nat) (T : Ty) (k i : Nat)
    (hT : sub_type T ≠ T) (hk : rank sub_type fuel T = some k) (h1 : 1 ≤ k) (hi : i < k) :
    ∃ Ti L, array_rank_type_list sub_type fuel T = some L ∧
      rank_type sub_type fuel T i = some Ti ∧
      rank sub_type fuel Ti = some (k - i) ∧
      array_rank_type_list sub_type fuel Ti = some (L.drop i) ∧
      (i = k - 1 → rank sub_type fuel Ti = some 1) := by
  have hT2 : T ≠ sub_type T := fun e => hT e.symm
  obtain ⟨L, hL, hkL⟩ : ∃ L, array_rank_type_list sub_type fuel T = some L ∧ rank_impl L = k := by
    simpa [rank] using hk
  have hL2 : concat_array_types sub_type fuel [] T false = some L := by
    simpa [array_rank_type_list, is_same, hT2] using hL
  obtain ⟨n, hn, hne, hfix, hchain⟩ := concat_array_types_inv sub_type fuel [] T L hL2
  simp only [List.nil_append] at hchain
  subst hchain
  rw [rank_impl_chain] at hkL
  have hin : i < n := by omega
  have hTi : sub_type^[i] T ≠ sub_type (sub_type^[i] T) := fun e => hne i hin e.symm
  have hlist : array_rank_type_list sub_type fuel (sub_type^[i] T)
      = some (sub_type_chain sub_type (n - i) (sub_type^[i] T)) := by
    rw [array_rank_type_list]
    simp only [is_same, hTi, decide_False]
    have := concat_array_types_chain sub_type (n - i) fuel [] (sub_type^[i] T) (by omega)
      (fun j hj => by
        have := hne (j + i) (by omega)
        simpa [Function.iterate_add_apply] using this)
      (by
        have : n - i + i = n := by omega
        rw [← Function.iterate_add_apply, this]
        exact hfix)
    simpa using this
  have hrank : rank sub_type fuel (sub_type^[i] T) = some (k - i) := by
    rw [rank, hlist, Option.map_some', rank_impl_chain]
    congr 1
    omega
  refine ⟨sub_type^[i] T, _, hL, ?_, hrank, ?_, ?_⟩
  · rw [rank_type, hL]
    simpa using sub_type_chain_get sub_type n i T (Nat.le_of_lt hin)
  · rw [hlist, sub_type_chain_drop sub_type n i T (Nat.le_of_lt hin)]
  · intro hik
    rw [hrank]
    congr 1
    omega

/-- C20 at `int[2][10][4]`, rank 3, and index 1: `int[10][4]` has rank 2 and
the list `[int[10][4], int[4], int]`. -/
theorem rank_type_consistent_witness :
    native_array_sub_type (native_array int_type [2, 10, 4]) ≠ native_array int_type [2, 10, 4] ∧
    rank native_array_sub_type 4 (native_array int_type [2, 10, 4]) = some 3 ∧
    ∃ Ti L, array_rank_type_list native_array_sub_type 4 (native_array int_type [2, 10, 4])
        = some L ∧
      rank_type native_array_sub_type 4 (native_array int_type [2, 10, 4]) 1 = some Ti ∧
      rank native_array_sub_type 4 Ti = some (3 - 1) ∧
      array_rank_type_list native_array_sub_type 4 Ti = some (L.drop 1) ∧
      (1 = 3 - 1 → rank native_array_sub_type 4 Ti = some 1) :=
  ⟨by decide, by decide,
    rank_type_consistent native_array_sub_type 4 (native_array int_type [2, 10, 4]) 3 1
      (by decide) (by decide) (by decide) (by decide)⟩

/-! ## `is_array` -/

theorem remove_cv_add_const : ∀ T : Ty, std.remove_cv (add_const T) = std.remove_cv T
  | .arr elem extent => by simp [add_const, std.remove_cv, remove_cv_add_const elem]
  | .named _ _ => rfl
  | .ptr _ _ => rfl
  | .lref _ => rfl
  | .rref _ => rfl
  | .func _ _ _ => rfl
  | .memptr _ _ _ => rfl
  | .tmpl _ _ _ => rfl

theorem remove_cv_ref_add_const (T : Ty) :
    remove_cv (remove_reference (add_const T)) = remove_cv (remove_reference T) := by
  cases T with
  | arr elem extent => exact remove_cv_add_const (.arr elem extent)
  | _ => rfl

theorem remove_reference_add_lvalue_reference (T : Ty) :
    remove_reference (add_lvalue_reference T) = remove_reference T := by
  cases T with
  | named name cv => by_cases h : name = "void" <;> simp [add_lvalue_reference, remove_reference, h]
  | func ret params quals =>
      by_cases h : quals = CV.none <;> simp [add_lvalue_reference, remove_reference, h]
  | _ => rfl

/-- C21: array-likeness is tested on the qualifier- and reference-stripped
but not pointer-stripped type: for every type `T`, `is_array<T>::value`,
`is_array<const T>::value`, `is_array<T&>::value` and
`is_array_impl<remove_cv_ref_t<T>>::value` are the same, true iff the array
adapter of `remove_cv_ref_t<T>` does not carry `no_array_type`; `is_array<T*>`
is decided by the adapter of `T*`: with the adapter of the native arrays,
`int[3]` and `const int(&)[3]` are array-like and `int(*)[3]` is not. -/
theorem is_array_on_cv_ref_stripped (no_array_type : Ty → Bool) (T : Ty) :
    is_array no_array_type T = is_array no_array_type (add_const T) ∧
    is_array no_array_type T = is_array no_array_type (add_lvalue_reference T) ∧
    is_array no_array_type T = is_array_impl no_array_type (remove_cv_ref_t T) ∧
    (is_array no_array_type T = true ↔ no_array_type (remove_cv_ref_t T) = false) ∧
    (∀ cv, is_array no_array_type (.ptr T cv) = is_array_impl no_array_type (.ptr T CV.none)) ∧
    is_array native_array_no_array_type (.arr int_type (some 3)) = true ∧
    is_array native_array_no_array_type (.lref (.arr (.named "int" ⟨true, false⟩) (some 3)))
      = true ∧
    is_array native_array_no_array_type (.ptr (.arr int_type (some 3)) CV.none) = false := by
  refine ⟨?_, ?_, ?_, ?_, ?_, by decide, by decide, by decide⟩
  · simp only [is_array, remove_cv_ref_add_const]
  · simp only [is_array, remove_reference_add_lvalue_reference]
  · simp [is_array, remove_cv_ref_t]
  · simp [is_array, is_array_impl, remove_cv_ref_t]
  · intro cv
    simp [is_array, remove_reference, remove_cv, std.remove_cv]

/-! ## `decay` is idempotent -/

/-- C22: `decay` is idempotent: for every type `T` (a reference refers to a
type that is not a reference), `decay<decay<T>::type>::type` is
`decay<T>::type`; so for the function type `void()`, for the reference to it
and for the cv-qualified array `const int[5]`. -/
theorem decay_idempotent (T : Ty) (hT : is_reference (remove_reference T) = false) :
    decay (decay T) = decay T ∧
    decay (decay void_function) = decay void_function ∧
    decay (decay (.lref void_function)) = decay (.lref void_function) ∧
    decay (decay (.arr (.named "int" ⟨true, false⟩) (some 5)))
      = decay (.arr (.named "int" ⟨true, false⟩) (some 5)) ∧
    decay (.arr (.named "int" ⟨true, false⟩) (some 5)) = .arr int_type (some 5) := by
  refine ⟨?_, by decide, by decide, by decide, by decide⟩
  have key : ∀ Tp : Ty, is_reference Tp = false →
      decay (if is_function Tp then add_pointer Tp else remove_cv Tp)
        = (if is_function Tp then add_pointer Tp else remove_cv Tp) := by
    intro Tp hTp
    cases Tp with
    | lref _ => simp [is_reference] at hTp
    | rref _ => simp [is_reference] at hTp
    | func ret params quals =>
        by_cases hq : quals = CV.none <;>
          simp [decay, is_function, add_pointer, hq, remove_reference, remove_cv, std.remove_cv]
    | arr elem extent =>
        simp [decay, is_function, remove_reference, remove_cv, std.remove_cv,
          std_remove_cv_idem]
    | _ => simp [decay, is_function, remove_reference, remove_cv, std.remove_cv]
  exact key (remove_reference T) hT

/-- C22 at `const volatile int(&)[2][3]`. -/
theorem decay_idempotent_witness :
    is_reference (remove_reference
      (.lref (.arr (.arr (.named "int" ⟨true, true⟩) (some 3)) (some 2)))) = false ∧
    decay (decay (.lref (.arr (.arr (.named "int" ⟨true, true⟩) (some 3)) (some 2))))
      = decay (.lref (.arr (.arr (.named "int" ⟨true, true⟩) (some 3)) (some 2))) ∧
    decay (.lref (.arr (.arr (.named "int" ⟨true, true⟩) (some 3)) (some 2)))
      = .arr (.arr int_type (some 3)) (some 2) :=
  ⟨rfl,
    (decay_idempotent (.lref (.arr (.arr (.named "int" ⟨true, true⟩) (some 3)) (some 2)))
      rfl).1,
    by decide⟩

/-! ## `remove_pointers`, `remove_pointers_except_one` -/

/-- `remove_pointers` satisfies the equations of its two templates. -/
theorem remove_pointers_eq (T : Ty) :
    remove_pointers T =
      if is_pointer T then remove_pointers (remove_pointer T) else T := by
  cases T <;> simp [remove_pointers, is_pointer, remove_pointer, std.remove_pointer]

/-- `remove_pointers_except_one` satisfies the equations of its two templates. -/
theorem remove_pointers_except_one_eq (T : Ty) :
    remove_pointers_except_one T =
      if is_pointer T then
        (if is_pointer (remove_pointer T) then remove_pointers_except_one (remove_pointer T)
         else T)
      else T := by
  cases T <;>
    simp [remove_pointers_except_one, is_pointer, remove_pointer, std.remove_pointer]

theorem remove_pointers_of_not_pointer (T : Ty) (h : is_pointer T = false) :
    remove_pointers T = T := by
  cases T <;> simp_all [remove_pointers, is_pointer]

theorem is_pointer_remove_pointers : ∀ T : Ty, is_pointer (remove_pointers T) = false
  | .ptr T _ => by simp [remove_pointers, is_pointer_remove_pointers T]
  | .named _ _ => rfl
  | .lref _ => rfl
  | .rref _ => rfl
  | .arr _ _ => rfl
  | .func _ _ _ => rfl
  | .memptr _ _ _ => rfl
  | .tmpl _ _ _ => rfl

/-- On a pointer, what is kept is one pointer layer on `remove_pointers<T>`. -/
theorem remove_pointers_except_one_layer : ∀ T : Ty, is_pointer T = true →
    ∃ cv, remove_pointers_except_one T = .ptr (remove_pointers T) cv
  | .ptr T cv, _ => by
      by_cases hp : is_pointer T = true
      · obtain ⟨cv2, h2⟩ := remove_pointers_except_one_layer T hp
        exact ⟨cv2, by simp [remove_pointers_except_one, remove_pointers, hp, h2]⟩
      · have hp2 : is_pointer T = false := by simpa using hp
        exact ⟨cv, by
          simp [remove_pointers_except_one, remove_pointers, hp2,
            remove_pointers_of_not_pointer T hp2]⟩
  | .named _ _, h => by simp [is_pointer] at h
  | .lref _, h => by simp [is_pointer] at h
  | .rref _, h => by simp [is_pointer] at h
  | .arr _ _, h => by simp [is_pointer] at h
  | .func _ _ _, h => by simp [is_pointer] at h
  | .memptr _ _ _, h => by simp [is_pointer] at h
  | .tmpl _ _ _, h => by simp [is_pointer] at h

/-- C23: `remove_pointers_except_one` keeps exactly the innermost pointer
layer: for every pointer `T`, `remove_pointers_except_one<T>::type` is a
pointer whose pointee, `remove_pointers<T>::type`, is not a pointer, and
`remove_pointers` of it is `remove_pointers<T>::type`; for every `T` that is
not a pointer both traits give `T`.  `char** const*` gives `char*` and
`char`. -/
theorem remove_pointers_except_one_innermost (T : Ty) :
    (is_pointer T = true →
      is_pointer (remove_pointers_except_one T) = true ∧
      is_pointer (remove_pointer (remove_pointers_except_one T)) = false ∧
      remove_pointers (remove_pointers_except_one T) = remove_pointers T ∧
      ∃ cv, remove_pointers_except_one T = .ptr (remove_pointers T) cv) ∧
    (is_pointer T = false →
      remove_pointers T = T ∧ remove_pointers_except_one T = T) ∧
    remove_pointers_except_one (pointer_layers char_type [CV.none, ⟨true, false⟩, CV.none])
      = .ptr char_type CV.none ∧
    remove_pointers (pointer_layers char_type [CV.none, ⟨true, false⟩, CV.none])
      = char_type := by
  refine ⟨?_, ?_, by decide, by decide⟩
  · intro hp
    obtain ⟨cv, h⟩ := remove_pointers_except_one_layer T hp
    have hn := is_pointer_remove_pointers T
    refine ⟨by rw [h]; rfl, ?_, ?_, cv, h⟩
    · rw [h]; simpa [remove_pointer, std.remove_pointer] using hn
    · rw [h]
      simp [remove_pointers, remove_pointers_of_not_pointer _ hn]
  · intro hp
    refine ⟨remove_pointers_of_not_pointer T hp, ?_⟩
    cases T <;> simp_all [remove_pointers_except_one, is_pointer]

end detail
end rttr
